import Mathlib

/-!
Shallow embedding of the CMS/ACS payment-inequality pipeline:
`code/preprocessing.py` (cleaning, census normalization, join, aggregation)
and `app.py` (filter/metric engine: income-band and state filters,
top-percent filter, top-1-share, Lorenz coordinates). Monetary amounts are
rationals; pandas null values are `Option`; the IEEE infinity/NaN outcomes
of float division are an explicit `PyFloat` sum type. String columns are
processed through structural functions over `List Char` mirroring the
Python string methods used by the source.
-/

namespace Pipeline

/-- Result of a pandas float computation: a finite value, an infinity, or NaN
(pandas uses NaN as the null of a float column). -/
inductive PyFloat where
  | finite (q : ℚ) : PyFloat
  | posInf : PyFloat
  | negInf : PyFloat
  | nan : PyFloat
  deriving Repr, DecidableEq

/-- Division of a finite float by a possibly-null divisor, following IEEE-754
semantics as pandas does: null divisor gives NaN, zero divisor gives a signed
infinity (or NaN for 0/0), otherwise the quotient. -/
def pyDivOpt (a : ℚ) (b : Option ℚ) : PyFloat :=
  match b with
  | none => .nan
  | some b =>
    if b = 0 then
      if 0 < a then .posInf else if a < 0 then .negInf else .nan
    else .finite (a / b)

/-- Python `str.split(sep)` for a one-character separator: an empty string
splits to one empty segment, a trailing separator yields a trailing empty
segment. -/
def pySplit (sep : Char) : List Char → List (List Char)
  | [] => [[]]
  | c :: cs =>
    if c = sep then [] :: pySplit sep cs
    else
      match pySplit sep cs with
      | [] => [[c]]
      | seg :: rest => (c :: seg) :: rest

/-- Python `str.strip()`: remove whitespace from both ends. -/
def pyStrip (cs : List Char) : List Char :=
  ((cs.dropWhile Char.isWhitespace).reverse.dropWhile Char.isWhitespace).reverse

/-- Raw payment record as read from the CMS CSV; fields pandas may hold as
NaN are `Option`. Mirrors the renamed columns of `preprocessing.py` STEP 3. -/
structure RawPayment where
  specialty : Option String
  payment_type : Option String
  payment_amount : Option ℚ
  state : Option String
  deriving Repr, DecidableEq

/-- Cleaned payment record after STEP 3 of `preprocessing.py`. -/
structure CleanPayment where
  state : String
  specialty_clean : String
  payment_type_clean : String
  payment_amount : ℚ
  deriving Repr, DecidableEq

/-- Specialty cleaning from `preprocessing.py` lines 59-65: split on the pipe,
take the last segment (pandas `.str[-1]`, which may be empty), strip it;
`.fillna` replaces only a missing raw value with "Unknown". -/
def cleanSpecialty (raw : Option String) : String :=
  match raw with
  | none => "Unknown"
  | some s => String.mk (pyStrip ((pySplit '|' s.data).getLastD []))

/-- Specialty cleaning as the spec describes it: split on the pipe, take the
last non-empty trimmed segment, and let an empty result become "Unknown".
Written from the spec's words, for comparison with `cleanSpecialty`. -/
def specSpecialty (raw : Option String) : String :=
  match raw with
  | none => "Unknown"
  | some s =>
    let segs := ((pySplit '|' s.data).map pyStrip).filter (fun t => t ≠ [])
    match segs.getLast? with
    | some t => String.mk t
    | none => "Unknown"

/-- Fixed lookup of long payment-nature descriptions to short labels
(`nature_map` in `preprocessing.py`). -/
def natureMap : List (String × String) :=
  [("Compensation for services other than consulting, including serving as faculty or as a speaker at a venue other than a continuing education program", "Non-consulting professional services"),
   ("Consulting Fee", "Consulting"),
   ("Food and Beverage", "Food & Beverage"),
   ("Travel and Lodging", "Travel & Lodging"),
   ("Royalty or License", "Royalty / License"),
   ("Honoraria", "Honoraria"),
   ("Education", "Education"),
   ("Grant", "Grant"),
   ("Acquisitions", "Acquisitions"),
   ("Entertainment", "Entertainment"),
   ("Long term medical supply or device loan", "Device / Supply Loan")]

/-- Payment-nature cleaning: exact-match lookup in `natureMap`; anything
unmatched (including null) becomes "Other". -/
def cleanNature (raw : Option String) : String :=
  match raw with
  | none => "Other"
  | some s => (natureMap.lookup s).getD "Other"

/-- STEP 3 of `preprocessing.py`: keep rows whose amount is a number greater
than zero (a NaN amount fails the pandas `> 0` comparison and is dropped),
then derive the cleaned columns; a missing state becomes "Unknown". -/
def cleanPayments (raws : List RawPayment) : List CleanPayment :=
  (raws.filter (fun r =>
      match r.payment_amount with
      | some a => decide (0 < a)
      | none => false)).map
    (fun r =>
      { state := r.state.getD "Unknown"
        specialty_clean := cleanSpecialty r.specialty
        payment_type_clean := cleanNature r.payment_type
        payment_amount := (r.payment_amount).getD 0 })

/-- Character list of the census column suffix "!!Estimate". -/
def estimateChars : List Char := "!!Estimate".data

/-- Fuel-indexed removal of every occurrence of "!!Estimate"; the fuel is
always instantiated with the length of the list, which suffices. -/
def stripEstimateAux : ℕ → List Char → List Char
  | 0, _ => []
  | _ + 1, [] => []
  | n + 1, c :: cs =>
    if estimateChars.isPrefixOf (c :: cs) then stripEstimateAux n (cs.drop 9)
    else c :: stripEstimateAux n cs

/-- Pandas `.str.replace("!!Estimate", "")` on the transposed census index:
removes every occurrence of the literal substring. -/
def stripEstimate (cs : List Char) : List Char :=
  stripEstimateAux cs.length cs

/-- Fixed name-to-abbreviation mapping of `preprocessing.py` (50 states
plus the District of Columbia). -/
def stateToAbbr : List (String × String) :=
  [("Alabama", "AL"), ("Alaska", "AK"), ("Arizona", "AZ"), ("Arkansas", "AR"), ("California", "CA"),
   ("Colorado", "CO"), ("Connecticut", "CT"), ("Delaware", "DE"), ("Florida", "FL"), ("Georgia", "GA"),
   ("Hawaii", "HI"), ("Idaho", "ID"), ("Illinois", "IL"), ("Indiana", "IN"), ("Iowa", "IA"),
   ("Kansas", "KS"), ("Kentucky", "KY"), ("Louisiana", "LA"), ("Maine", "ME"), ("Maryland", "MD"),
   ("Massachusetts", "MA"), ("Michigan", "MI"), ("Minnesota", "MN"), ("Mississippi", "MS"), ("Missouri", "MO"),
   ("Montana", "MT"), ("Nebraska", "NE"), ("Nevada", "NV"), ("New Hampshire", "NH"), ("New Jersey", "NJ"),
   ("New Mexico", "NM"), ("New York", "NY"), ("North Carolina", "NC"), ("North Dakota", "ND"), ("Ohio", "OH"),
   ("Oklahoma", "OK"), ("Oregon", "OR"), ("Pennsylvania", "PA"), ("Rhode Island", "RI"), ("South Carolina", "SC"),
   ("South Dakota", "SD"), ("Tennessee", "TN"), ("Texas", "TX"), ("Utah", "UT"), ("Vermont", "VT"),
   ("Virginia", "VA"), ("Washington", "WA"), ("West Virginia", "WV"), ("Wisconsin", "WI"), ("Wyoming", "WY"),
   ("District of Columbia", "DC")]

/-- Cleaned census row after STEP 4 of `preprocessing.py`: state name with
the "!!Estimate" suffix removed, numeric indicators (null when unparseable),
and the mapped abbreviation (null when the name is not in `stateToAbbr`). -/
structure CensusClean where
  state_name : String
  median_income : Option ℚ
  total_households : Option ℚ
  state_abbr : Option String
  deriving Repr, DecidableEq

/-- STEP 4 of `preprocessing.py` applied to one transposed census column:
strip "!!Estimate" from the name, then map the name through `stateToAbbr`
(pandas `.map` gives NaN on a miss). -/
def processCensusRow (name : String) (inc hh : Option ℚ) : CensusClean :=
  let n := String.mk (stripEstimate name.data)
  { state_name := n
    median_income := inc
    total_households := hh
    state_abbr := stateToAbbr.lookup n }

/-- Per-state payment totals: `payments_df.groupby('state')['payment_amount'].sum()`
(STEP 5, line 133). One output pair per distinct state value. -/
def groupStates (ps : List CleanPayment) : List (String × ℚ) :=
  ((ps.map (fun p => p.state)).dedup).map
    (fun s => (s, ((ps.filter (fun p => p.state = s)).map (fun p => p.payment_amount)).sum))

/-- Row of the state summary table (`cms_acs_state_summary.csv`). -/
structure SummaryRow where
  state : String
  payment_amount : ℚ
  median_income : Option ℚ
  total_households : Option ℚ
  deriving Repr, DecidableEq

/-- STEP 5 inner merge of per-state totals with the census table on
`state == state_abbr` (line 134). The left key is never null (missing
states were filled with "Unknown"), so a census row with a null
abbreviation matches no left row. -/
def mapData (ps : List CleanPayment) (census : List CensusClean) : List SummaryRow :=
  (groupStates ps).flatMap (fun g =>
    (census.filter (fun c => c.state_abbr = some g.1)).map
      (fun c =>
        { state := g.1
          payment_amount := g.2
          median_income := c.median_income
          total_households := c.total_households }))

/-- Line 135 of `preprocessing.py`: the per-household ratio column, a plain
pandas float division of the state total by `total_households`. -/
def paymentPerHousehold (r : SummaryRow) : PyFloat :=
  pyDivOpt r.payment_amount r.total_households

/-- Row of the derived detail table (`cms_payments_details.csv`): one row per
(state, specialty_clean, payment_type_clean) group with the summed amount. -/
structure DetailRow where
  state : String
  specialty_clean : String
  payment_type_clean : String
  payment_amount : ℚ
  deriving Repr, DecidableEq

/-- STEP 6 of `preprocessing.py` (line 141): group the cleaned payments by
(state, specialty_clean, payment_type_clean) and sum the amounts. -/
def detailData (ps : List CleanPayment) : List DetailRow :=
  ((ps.map (fun p => (p.state, p.specialty_clean, p.payment_type_clean))).dedup).map
    (fun k =>
      { state := k.1
        specialty_clean := k.2.1
        payment_type_clean := k.2.2
        payment_amount :=
          ((ps.filter (fun p =>
              p.state = k.1 ∧ p.specialty_clean = k.2.1 ∧ p.payment_type_clean = k.2.2)).map
            (fun p => p.payment_amount)).sum })

/-- State-summary row as the filter logic of `app.py` sees it: the state code
and its income percentile. -/
structure StateRow where
  state : String
  income_percentile : ℚ
  deriving Repr, DecidableEq

/-- Lines 78-81 of `app.py`: states whose income percentile lies within the
slider band, both ends inclusive. -/
def wealthEligibleStates (states : List StateRow) (lo hi : ℚ) : List String :=
  (states.filter (fun r => lo ≤ r.income_percentile ∧ r.income_percentile ≤ hi)).map
    (fun r => r.state)

/-- Line 84 of `app.py`: a state is kept only when it is both explicitly
selected and wealth-eligible. -/
def finalStateList (selected eligible : List String) : List String :=
  selected.filter (fun s => s ∈ eligible)

/-- Lines 86-89 of `app.py`: detail rows whose specialty is selected and
whose state is in the final state list. -/
def step3Filter (details : List DetailRow) (specs stateList : List String) : List DetailRow :=
  details.filter (fun r => r.specialty_clean ∈ specs ∧ r.state ∈ stateList)

/-- Linear interpolation between the order statistics of `s` at positions
floor h and floor h + 1 (the position h = floor h + fraction). -/
def interpAt (s : List ℚ) (h : ℚ) : ℚ :=
  let i : ℕ := (⌊h⌋).toNat
  let lo := s.getD i 0
  let hi := s.getD (i + 1) lo
  lo + (h - (i : ℚ)) * (hi - lo)

/-- Linear-interpolation quantile, the pandas default `Series.quantile`:
sort ascending and interpolate at position q*(n-1). Returns 0 on an empty
list (the code never takes the quantile of an empty series). -/
def quantileLI (l : List ℚ) (q : ℚ) : ℚ :=
  let s := List.insertionSort (· ≤ ·) l
  if s.length = 0 then 0
  else interpAt s (q * ((s.length : ℚ) - 1))

/-- Top-percent concentration filter of `app.py` lines 92-94: when
`top_percent < 100` and the current frame is non-empty, keep only rows whose
amount is at least the `(1 - top_percent/100)` quantile of the amounts. -/
def applyTopPercent (df : List DetailRow) (top_percent : ℚ) : List DetailRow :=
  if top_percent < 100 ∧ 0 < df.length then
    let threshold := quantileLI (df.map (fun r => r.payment_amount)) (1 - top_percent / 100)
    df.filter (fun r => threshold ≤ r.payment_amount)
  else df

/-- Line 101 of `app.py`: sum of the filtered amounts. -/
def totalPayments (df : List DetailRow) : ℚ :=
  (df.map (fun r => r.payment_amount)).sum

/-- Lines 104-109 of `app.py`: share of the total held by rows at or above
the 0.99 quantile of the filtered amounts; defined as 0 when the total is
not positive. -/
def top1Share (df : List DetailRow) : ℚ :=
  let total := totalPayments df
  if 0 < total then
    let t := quantileLI (df.map (fun r => r.payment_amount)) (99 / 100)
    ((df.filter (fun r => t ≤ r.payment_amount)).map (fun r => r.payment_amount)).sum / total
  else 0

/-- Coordinate pairs of the Lorenz construction over an amounts series:
the k-th pair is (k/n, (sum of the first k amounts)/total), for k = 1..n. -/
def lorenzPoints (amounts : List ℚ) : List (ℚ × ℚ) :=
  let n := amounts.length
  let total := amounts.sum
  (List.range n).map (fun i =>
    ((((i : ℕ) : ℚ) + 1) / (n : ℚ), (amounts.take (i + 1)).sum / total))

/-- Lines 134-138 of `app.py`: sort the filtered amounts ascending
(`sort_values`), then take cumulative sum over total against index over
count. -/
def lorenzCoords (df : List DetailRow) : List (ℚ × ℚ) :=
  lorenzPoints (List.insertionSort (· ≤ ·) (df.map (fun r => r.payment_amount)))

/-- Observable side effects of one `run_preprocessing()` call, in program
order: the optional CMS fetch-and-cache, then the two derived-table writes. -/
inductive Effect where
  | fetchCMS : Effect
  | writeRawCache : Effect
  | writeStateSummary : Effect
  | writeDetail : Effect
  deriving Repr, DecidableEq

/-- Abort conditions modelled for the run. -/
inductive RunError where
  | missingACS : RunError
  deriving Repr, DecidableEq

/-- Filesystem state `run_preprocessing()` starts from. -/
structure Env where
  cmsCacheExists : Bool
  acsExists : Bool
  deriving Repr, DecidableEq

/-- Control-flow skeleton of `run_preprocessing()`: load or fetch the CMS
data (STEP 2), clean (STEP 3), then check for the ACS file (STEP 4, line 92)
and raise FileNotFoundError when it is absent — before either derived write
(lines 138 and 142). Returns the emitted effects in order and the error, if
any, that ended the run. -/
def runPreprocessing (env : Env) : List Effect × Option RunError :=
  let pre : List Effect := if env.cmsCacheExists then [] else [.fetchCMS, .writeRawCache]
  if env.acsExists then
    (pre ++ [.writeStateSummary, .writeDetail], none)
  else
    (pre, some .missingACS)

/-- Helper: `pySplit` never returns the empty list of segments. -/
lemma pySplit_ne_nil (sep : Char) (cs : List Char) : pySplit sep cs ≠ [] := by
  cases cs with
  | nil => simp [pySplit]
  | cons c t =>
    simp only [pySplit]
    split
    · simp
    · split <;> simp

/-- Helper: filtering preserves the last element when it satisfies the
predicate. -/
lemma getLast?_filter_pos {α : Type} (p : α → Bool) (l : List α) (a : α)
    (hl : l.getLast? = some a) (hp : p a = true) :
    (l.filter p).getLast? = some a := by
  induction l with
  | nil => simp at hl
  | cons b t ih =>
    cases t with
    | nil =>
      simp only [List.getLast?_singleton, Option.some.injEq] at hl
      subst hl
      simp [List.filter, hp]
    | cons c t2 =>
      rw [List.getLast?_cons_cons] at hl
      have hrest := ih hl
      by_cases hpb : p b = true
      · rw [List.filter_cons_of_pos hpb]
        cases hfe : List.filter p (c :: t2) with
        | nil => rw [hfe] at hrest; simp at hrest
        | cons x xs =>
          rw [hfe] at hrest
          rw [List.getLast?_cons_cons]
          exact hrest
      · rw [List.filter_cons_of_neg (by simpa using hpb)]
        exact hrest

/-- Helper: with non-negative values, dropping rows by a filter cannot
increase the mapped sum. -/
lemma sum_map_filter_le {α : Type} (p : α → Bool) (f : α → ℚ) (l : List α)
    (h : ∀ x ∈ l, 0 ≤ f x) :
    ((l.filter p).map f).sum ≤ (l.map f).sum := by
  induction l with
  | nil => simp
  | cons a t ih =>
    have ha := h a (by simp)
    have ht : ∀ x ∈ t, 0 ≤ f x := fun x hx => h x (by simp [hx])
    by_cases hpa : p a = true
    · rw [List.filter_cons_of_pos hpa]
      simpa using add_le_add_left (ih ht) (f a)
    · rw [List.filter_cons_of_neg (by simpa using hpa)]
      simp only [List.map_cons, List.sum_cons]
      calc ((t.filter p).map f).sum ≤ (t.map f).sum := ih ht
        _ ≤ f a + (t.map f).sum := le_add_of_nonneg_left ha

/-- Helper: a mapped sum over non-negative values is non-negative. -/
lemma sum_map_nonneg {α : Type} (f : α → ℚ) (l : List α)
    (h : ∀ x ∈ l, 0 ≤ f x) : 0 ≤ (l.map f).sum := by
  refine List.sum_nonneg ?_
  intro x hx
  obtain ⟨a, ha, rfl⟩ := List.mem_map.mp hx
  exact h a ha

/-- Helper: generalization of `sum_map_filter_le` to two filters, the first
implying the second. -/
lemma sum_map_filter_mono {α : Type} (p q : α → Bool) (f : α → ℚ) (l : List α)
    (himp : ∀ x ∈ l, p x = true → q x = true) (h : ∀ x ∈ l, 0 ≤ f x) :
    ((l.filter p).map f).sum ≤ ((l.filter q).map f).sum := by
  induction l with
  | nil => simp
  | cons a t ih =>
    have ha := h a (by simp)
    have ht : ∀ x ∈ t, 0 ≤ f x := fun x hx => h x (by simp [hx])
    have himpt : ∀ x ∈ t, p x = true → q x = true := fun x hx => himp x (by simp [hx])
    by_cases hpa : p a = true
    · have hqa := himp a (by simp) hpa
      rw [List.filter_cons_of_pos hpa, List.filter_cons_of_pos hqa]
      simpa using add_le_add_left (ih himpt ht) (f a)
    · rw [List.filter_cons_of_neg (by simpa using hpa)]
      by_cases hqa : q a = true
      · rw [List.filter_cons_of_pos hqa]
        simp only [List.map_cons, List.sum_cons]
        calc ((t.filter p).map f).sum ≤ ((t.filter q).map f).sum := ih himpt ht
          _ ≤ f a + ((t.filter q).map f).sum := le_add_of_nonneg_left ha
      · rw [List.filter_cons_of_neg (by simpa using hqa)]
        exact ih himpt ht

/-- Helper: in a list sorted ascending, an entry at a lower valid index is at
most the entry at a higher valid index, whatever defaults are supplied. -/
lemma sorted_getD_le (s : List ℚ) (hs : List.Sorted (· ≤ ·) s) (i j : ℕ)
    (hij : i ≤ j) (hj : j < s.length) (d e : ℚ) :
    s.getD i d ≤ s.getD j e := by
  rw [List.getD_eq_getElem s d (Nat.lt_of_le_of_lt hij hj), List.getD_eq_getElem s e hj]
  have h := hs.rel_get_of_le (a := ⟨i, Nat.lt_of_le_of_lt hij hj⟩) (b := ⟨j, hj⟩)
    (Fin.mk_le_mk.mpr hij)
  simpa using h

/-- Helper: the linear interpolation through the order statistics of a sorted
list is monotone in the position, over the valid position range. -/
lemma interpAt_mono (s : List ℚ) (hs : List.Sorted (· ≤ ·) s)
    (h1 h2 : ℚ) (h0 : 0 ≤ h1) (h12 : h1 ≤ h2) (hub : h2 ≤ (s.length : ℚ) - 1) :
    interpAt s h1 ≤ interpAt s h2 := by
  have h02 : 0 ≤ h2 := le_trans h0 h12
  have hn1 : 1 ≤ s.length := by
    rcases Nat.eq_zero_or_pos s.length with hz | hp
    · rw [hz] at hub
      norm_num at hub
      linarith
    · exact hp
  have hf1 : (0:ℤ) ≤ ⌊h1⌋ := Int.floor_nonneg.mpr h0
  have hf2 : (0:ℤ) ≤ ⌊h2⌋ := Int.floor_nonneg.mpr h02
  have hfl2 : ⌊h2⌋ ≤ (s.length : ℤ) - 1 := by
    have hmono : ⌊h2⌋ ≤ ⌊((s.length : ℚ) - 1)⌋ := Int.floor_mono hub
    rwa [show ((s.length : ℚ) - 1) = (((s.length : ℤ) - 1 : ℤ) : ℚ) by push_cast; ring,
      Int.floor_intCast] at hmono
  simp only [interpAt]
  set i1 := (⌊h1⌋).toNat with hi1d
  set i2 := (⌊h2⌋).toNat with hi2d
  have key1 : ((i1 : ℚ)) = ((⌊h1⌋ : ℚ)) := by
    rw [hi1d]
    exact_mod_cast Int.toNat_of_nonneg hf1
  have key2 : ((i2 : ℚ)) = ((⌊h2⌋ : ℚ)) := by
    rw [hi2d]
    exact_mod_cast Int.toNat_of_nonneg hf2
  have hc1 : (i1 : ℚ) ≤ h1 := by rw [key1]; exact Int.floor_le h1
  have hc2 : (i2 : ℚ) ≤ h2 := by rw [key2]; exact Int.floor_le h2
  have hlt1 : h1 < (i1 : ℚ) + 1 := by rw [key1]; exact Int.lt_floor_add_one h1
  have hii : i1 ≤ i2 := by
    rw [hi1d, hi2d]
    exact Int.toNat_le_toNat (Int.floor_mono h12)
  have hi2n : i2 < s.length := by
    rw [hi2d]
    omega
  rcases Nat.lt_or_ge i1 i2 with hcase | hcase
  · have hi11 : i1 + 1 < s.length := by omega
    have hd1 : s.getD i1 0 ≤ s.getD (i1 + 1) (s.getD i1 0) :=
      sorted_getD_le s hs i1 (i1 + 1) (by omega) hi11 0 _
    have hv1 : s.getD i1 0 + (h1 - (i1 : ℚ)) *
        (s.getD (i1 + 1) (s.getD i1 0) - s.getD i1 0) ≤
        s.getD (i1 + 1) (s.getD i1 0) := by
      have hm := mul_le_mul_of_nonneg_right
        (show h1 - (i1 : ℚ) ≤ 1 by linarith)
        (show (0:ℚ) ≤ s.getD (i1 + 1) (s.getD i1 0) - s.getD i1 0 by linarith)
      linarith
    have hmid : s.getD (i1 + 1) (s.getD i1 0) ≤ s.getD i2 0 :=
      sorted_getD_le s hs (i1 + 1) i2 (by omega) hi2n _ 0
    have hd2 : s.getD i2 0 ≤ s.getD (i2 + 1) (s.getD i2 0) := by
      rcases Nat.lt_or_ge (i2 + 1) s.length with hb | hb
      · exact sorted_getD_le s hs i2 (i2 + 1) (by omega) hb 0 _
      · rw [List.getD_eq_default s _ hb]
    have hv2 : s.getD i2 0 ≤ s.getD i2 0 + (h2 - (i2 : ℚ)) *
        (s.getD (i2 + 1) (s.getD i2 0) - s.getD i2 0) := by
      have hm := mul_nonneg (show (0:ℚ) ≤ h2 - (i2 : ℚ) by linarith)
        (show (0:ℚ) ≤ s.getD (i2 + 1) (s.getD i2 0) - s.getD i2 0 by linarith)
      linarith
    linarith
  · have heq : i1 = i2 := le_antisymm hii hcase
    rw [← heq]
    have hd : s.getD i1 0 ≤ s.getD (i1 + 1) (s.getD i1 0) := by
      rcases Nat.lt_or_ge (i1 + 1) s.length with hb | hb
      · exact sorted_getD_le s hs i1 (i1 + 1) (by omega) hb 0 _
      · rw [List.getD_eq_default s _ hb]
    have hm := mul_le_mul_of_nonneg_right
      (show h1 - (i1 : ℚ) ≤ h2 - (i1 : ℚ) by linarith)
      (show (0:ℚ) ≤ s.getD (i1 + 1) (s.getD i1 0) - s.getD i1 0 by linarith)
    linarith

/-- Helper: the linear-interpolation quantile is monotone in the requested
quantile level over [0, 1]. -/
lemma quantileLI_mono (l : List ℚ) (q1 q2 : ℚ) (h0 : 0 ≤ q1) (h12 : q1 ≤ q2)
    (h1 : q2 ≤ 1) : quantileLI l q1 ≤ quantileLI l q2 := by
  simp only [quantileLI]
  set s := List.insertionSort (· ≤ ·) l with hsd
  by_cases hn : s.length = 0
  · simp [hn]
  · rw [if_neg hn, if_neg hn]
    have hs : List.Sorted (· ≤ ·) s := List.sorted_insertionSort (· ≤ ·) l
    have hlen1 : (1:ℚ) ≤ (s.length : ℚ) := by
      have h := Nat.one_le_iff_ne_zero.mpr hn
      exact_mod_cast h
    apply interpAt_mono s hs
    · exact mul_nonneg h0 (by linarith)
    · exact mul_le_mul_of_nonneg_right h12 (by linarith)
    · calc q2 * ((s.length : ℚ) - 1) ≤ 1 * ((s.length : ℚ) - 1) :=
          mul_le_mul_of_nonneg_right h1 (by linarith)
        _ = (s.length : ℚ) - 1 := one_mul _

/-- Helper: the top-percent step in its active case is exactly the quantile
threshold filter. -/
lemma applyTopPercent_eq_filter (df : List DetailRow) (p : ℚ)
    (h : p < 100) (hl : 0 < df.length) :
    applyTopPercent df p = df.filter (fun r =>
      quantileLI (df.map (fun r => r.payment_amount)) (1 - p / 100) ≤
        r.payment_amount) := by
  unfold applyTopPercent
  rw [if_pos (And.intro h hl)]

/-- Helper: the top-percent step in its inactive cases is the identity. -/
lemma applyTopPercent_eq_self (df : List DetailRow) (p : ℚ)
    (h : ¬(p < 100 ∧ 0 < df.length)) : applyTopPercent df p = df := by
  unfold applyTopPercent
  rw [if_neg h]

/-- Helper: with non-negative amounts, consecutive Lorenz points are
non-decreasing in both coordinates. -/
lemma lorenzPoints_chain (amounts : List ℚ) (h : ∀ x ∈ amounts, 0 ≤ x) :
    List.Chain' (fun a b : ℚ × ℚ => a.1 ≤ b.1 ∧ a.2 ≤ b.2) (lorenzPoints amounts) := by
  simp only [lorenzPoints]
  rw [List.chain'_map]
  cases hn : amounts.length with
  | zero => simp
  | succ m =>
    rw [List.chain'_range_succ]
    intro k hk
    have hk1 : k + 1 < amounts.length := by omega
    dsimp only
    constructor
    · apply div_le_div_of_nonneg_right ?_ (by positivity)
      push_cast
      linarith
    · have hstep : (amounts.take (k + 1 + 1)).sum =
          (amounts.take (k + 1)).sum + amounts[k + 1] :=
        List.sum_take_succ amounts (k + 1) hk1
      have hget : (0 : ℚ) ≤ amounts[k + 1] := h _ (List.getElem_mem hk1)
      have hsums : (amounts.take (k + 1)).sum ≤ (amounts.take (k + 1 + 1)).sum := by
        rw [hstep]; linarith
      exact div_le_div_of_nonneg_right hsums (List.sum_nonneg (fun x hx => h x hx))

/-- Helper: with a non-empty amounts list of positive total, the final
Lorenz point is exactly (1, 1). -/
lemma lorenzPoints_last (amounts : List ℚ) (hne : amounts ≠ [])
    (htot : 0 < amounts.sum) :
    (lorenzPoints amounts).getLast? = some (1, 1) := by
  obtain ⟨m, hm⟩ : ∃ m, amounts.length = m + 1 := by
    cases hl : amounts.length with
    | zero => exact absurd (List.length_eq_zero.mp hl) hne
    | succ m => exact ⟨m, rfl⟩
  simp only [lorenzPoints, hm, List.range_succ, List.map_append, List.map_cons,
    List.map_nil, List.getLast?_concat, Option.some.injEq]
  have h1 : ((m : ℚ) + 1) / (((m + 1 : ℕ) : ℚ)) = 1 := by
    push_cast
    apply div_self
    positivity
  have h2 : amounts.take (m + 1) = amounts :=
    List.take_of_length_le (le_of_eq hm)
  rw [h1, h2, div_self (ne_of_gt htot)]

/-- Helper: every cleaned payment has a strictly positive amount (the
cleaning step drops non-positive and missing amounts). -/
lemma cleanPayments_pos (raws : List RawPayment) :
    ∀ p ∈ cleanPayments raws, 0 < p.payment_amount := by
  intro p hp
  simp only [cleanPayments, List.mem_map] at hp
  obtain ⟨r, hr, rfl⟩ := hp
  have hf := (List.mem_filter.mp hr).2
  cases ha : r.payment_amount with
  | none => rw [ha] at hf; simp at hf
  | some a =>
    rw [ha] at hf
    simp only [decide_eq_true_eq] at hf
    simpa [ha] using hf

/-- Helper: a state appears as a group key of the per-state totals exactly
when some cleaned payment has that state. -/
lemma groupStates_keys (ps : List CleanPayment) (s : String) :
    (∃ g ∈ groupStates ps, g.1 = s) ↔ ∃ p ∈ ps, p.state = s := by
  constructor
  · rintro ⟨g, hg, rfl⟩
    simp only [groupStates, List.mem_map, List.mem_dedup] at hg
    obtain ⟨k, ⟨p, hp, hps⟩, rfl⟩ := hg
    exact ⟨p, hp, hps⟩
  · rintro ⟨p, hp, rfl⟩
    refine ⟨(p.state, ((ps.filter (fun q => q.state = p.state)).map
      (fun q => q.payment_amount)).sum), ?_, rfl⟩
    simp only [groupStates, List.mem_map, List.mem_dedup]
    exact ⟨p.state, ⟨p, hp, rfl⟩, rfl⟩

/-- Helper: when all payments are positive, every per-state total is
positive. -/
lemma groupStates_pos (ps : List CleanPayment)
    (hpos : ∀ p ∈ ps, 0 < p.payment_amount) :
    ∀ g ∈ groupStates ps, 0 < g.2 := by
  intro g hg
  simp only [groupStates, List.mem_map, List.mem_dedup] at hg
  obtain ⟨s, ⟨p, hp, hps⟩, rfl⟩ := hg
  apply List.sum_pos
  · intro x hx
    obtain ⟨q, hq, rfl⟩ := List.mem_map.mp hx
    exact hpos q (List.mem_of_mem_filter hq)
  · have hmem : p ∈ ps.filter (fun q => q.state = s) :=
      List.mem_filter.mpr ⟨hp, by simp [hps]⟩
    intro hnil
    rw [List.map_eq_nil_iff] at hnil
    rw [hnil] at hmem
    simp at hmem

/-- Helper: the per-state totals of a single payment. -/
lemma groupStates_singleton (p : CleanPayment) :
    groupStates [p] = [(p.state, p.payment_amount)] := by
  simp [groupStates]

/-- Helper: membership in the merged state summary, unfolded. -/
lemma mem_mapData (ps : List CleanPayment) (census : List CensusClean)
    (r : SummaryRow) :
    r ∈ mapData ps census ↔
      ∃ g ∈ groupStates ps, ∃ c ∈ census, c.state_abbr = some g.1 ∧
        r = SummaryRow.mk g.1 g.2 c.median_income c.total_households := by
  simp only [mapData, List.mem_flatMap, List.mem_map, List.mem_filter,
    decide_eq_true_eq]
  constructor
  · rintro ⟨g, hg, c, ⟨hc, habbr⟩, rfl⟩
    exact ⟨g, hg, c, hc, habbr, rfl⟩
  · rintro ⟨g, hg, c, hc, habbr, rfl⟩
    exact ⟨g, hg, c, ⟨hc, habbr⟩, rfl⟩

/-- Helper: with distinct non-null abbreviations, the number of census rows
matching a given state is 1 when a match exists and 0 otherwise. -/
lemma census_match_count (census : List CensusClean) (s : String)
    (hnodup : (census.filterMap (fun c => c.state_abbr)).Nodup) :
    (census.filter (fun c => c.state_abbr = some s)).length =
      if ∃ c ∈ census, c.state_abbr = some s then 1 else 0 := by
  induction census with
  | nil => simp
  | cons c t ih =>
    cases habbr : c.state_abbr with
    | none =>
      have hnt : (t.filterMap (fun x => x.state_abbr)).Nodup := by
        simpa [List.filterMap_cons, habbr] using hnodup
      rw [List.filter_cons_of_neg (by simp [habbr]), ih hnt]
      have hiff : (∃ x ∈ c :: t, x.state_abbr = some s) ↔
          (∃ x ∈ t, x.state_abbr = some s) := by
        constructor
        · rintro ⟨x, hx, hxa⟩
          rcases List.mem_cons.mp hx with rfl | hxt
          · rw [habbr] at hxa; exact absurd hxa (by simp)
          · exact ⟨x, hxt, hxa⟩
        · rintro ⟨x, hx, hxa⟩
          exact ⟨x, List.mem_cons_of_mem _ hx, hxa⟩
      rw [if_congr hiff rfl rfl]
    | some v =>
      have hfm : ((c :: t).filterMap (fun x => x.state_abbr)) =
          v :: t.filterMap (fun x => x.state_abbr) := by
        simp [List.filterMap_cons, habbr]
      rw [hfm] at hnodup
      obtain ⟨hv, hnt⟩ := List.nodup_cons.mp hnodup
      by_cases hvs : v = s
      · subst hvs
        rw [List.filter_cons_of_pos (by simp [habbr])]
        simp only [List.length_cons]
        have ht0 : (t.filter (fun x => x.state_abbr = some v)).length = 0 := by
          rw [ih hnt, if_neg]
          rintro ⟨x, hx, hxa⟩
          exact hv (List.mem_filterMap.mpr ⟨x, hx, hxa⟩)
        rw [ht0, if_pos ⟨c, by simp, habbr⟩]
      · rw [List.filter_cons_of_neg (by simp [habbr, hvs]), ih hnt]
        have hiff : (∃ x ∈ c :: t, x.state_abbr = some s) ↔
            (∃ x ∈ t, x.state_abbr = some s) := by
          constructor
          · rintro ⟨x, hx, hxa⟩
            rcases List.mem_cons.mp hx with rfl | hxt
            · rw [habbr] at hxa
              exact absurd (Option.some.inj hxa) hvs
            · exact ⟨x, hxt, hxa⟩
          · rintro ⟨x, hx, hxa⟩
            exact ⟨x, List.mem_cons_of_mem _ hx, hxa⟩
        rw [if_congr hiff rfl rfl]

/-- Helper: row count of the inner join restricted to one state, over any
group list with distinct keys. -/
lemma join_count (gs : List (String × ℚ)) (census : List CensusClean) (s : String)
    (hkeys : (gs.map Prod.fst).Nodup)
    (hnodup : (census.filterMap (fun c => c.state_abbr)).Nodup) :
    ((gs.flatMap (fun g => (census.filter (fun c => c.state_abbr = some g.1)).map
        (fun c => SummaryRow.mk g.1 g.2 c.median_income c.total_households))).filter
      (fun r => r.state = s)).length =
      if (∃ g ∈ gs, g.1 = s) ∧ (∃ c ∈ census, c.state_abbr = some s)
      then 1 else 0 := by
  induction gs with
  | nil => simp
  | cons g t ih =>
    rw [List.map_cons] at hkeys
    obtain ⟨hg1, hkt⟩ := List.nodup_cons.mp hkeys
    rw [List.flatMap_cons, List.filter_append, List.length_append]
    by_cases hgs : g.1 = s
    · subst hgs
      have hinner : ((census.filter (fun c => c.state_abbr = some g.1)).map
          (fun c => SummaryRow.mk g.1 g.2 c.median_income c.total_households)).filter
            (fun r => r.state = g.1) =
          (census.filter (fun c => c.state_abbr = some g.1)).map
            (fun c => SummaryRow.mk g.1 g.2 c.median_income c.total_households) := by
        apply List.filter_eq_self.mpr
        intro r hrm
        obtain ⟨c, hc, rfl⟩ := List.mem_map.mp hrm
        simp
      rw [hinner, List.length_map]
      have hrest : ((t.flatMap (fun g' =>
          (census.filter (fun c => c.state_abbr = some g'.1)).map
            (fun c => SummaryRow.mk g'.1 g'.2 c.median_income
              c.total_households))).filter (fun r => r.state = g.1)).length = 0 := by
        rw [ih hkt, if_neg]
        rintro ⟨⟨g', hg', hg's⟩, -⟩
        exact hg1 (hg's ▸ List.mem_map.mpr ⟨g', hg', rfl⟩)
      rw [hrest, census_match_count census g.1 hnodup]
      by_cases hex : ∃ c ∈ census, c.state_abbr = some g.1
      · rw [if_pos hex, if_pos ⟨⟨g, by simp, rfl⟩, hex⟩]
      · rw [if_neg hex, if_neg (fun hc => hex hc.2)]
    · have hinner : ((census.filter (fun c => c.state_abbr = some g.1)).map
          (fun c => SummaryRow.mk g.1 g.2 c.median_income c.total_households)).filter
            (fun r => r.state = s) = [] := by
        apply List.filter_eq_nil_iff.mpr
        intro r hrm
        obtain ⟨c, hc, rfl⟩ := List.mem_map.mp hrm
        simp [hgs]
      rw [hinner]
      simp only [List.length_nil, Nat.zero_add]
      rw [ih hkt]
      have hiff : ((∃ g' ∈ g :: t, g'.1 = s) ∧
          (∃ c ∈ census, c.state_abbr = some s)) ↔
          ((∃ g' ∈ t, g'.1 = s) ∧ (∃ c ∈ census, c.state_abbr = some s)) := by
        apply and_congr _ Iff.rfl
        constructor
        · rintro ⟨g', hg', hg's⟩
          rcases List.mem_cons.mp hg' with rfl | hgt
          · exact absurd hg's hgs
          · exact ⟨g', hgt, hg's⟩
        · rintro ⟨g', hg', hg's⟩
          exact ⟨g', List.mem_cons_of_mem _ hg', hg's⟩
      rw [if_congr hiff.symm rfl rfl]

/-- Helper: every state with a cleaned payment yields at least one detail
row with that state. -/
lemma detailData_states (ps : List CleanPayment) (s : String)
    (h : ∃ p ∈ ps, p.state = s) : ∃ d ∈ detailData ps, d.state = s := by
  obtain ⟨p, hp, hps⟩ := h
  simp only [detailData, List.mem_map, List.mem_dedup]
  exact ⟨_, ⟨(p.state, p.specialty_clean, p.payment_type_clean),
    ⟨p, hp, rfl⟩, rfl⟩, hps⟩

/-- Helper: the group keys of the per-state totals are distinct. -/
lemma groupStates_keys_nodup (ps : List CleanPayment) :
    ((groupStates ps).map Prod.fst).Nodup := by
  have he : (groupStates ps).map Prod.fst = (ps.map (fun p => p.state)).dedup := by
    simp [groupStates, List.map_map, Function.comp_def]
  rw [he]
  exact List.nodup_dedup _

/-- Helper: a key absent from an association list looks up to none. -/
lemma lookup_eq_none_of_not_mem {l : List (String × String)} {k : String}
    (h : k ∉ l.map Prod.fst) : l.lookup k = none := by
  induction l with
  | nil => rfl
  | cons a t ih =>
    obtain ⟨a1, a2⟩ := a
    simp only [List.map_cons, List.mem_cons] at h
    push_neg at h
    obtain ⟨h1, h2⟩ := h
    have hbeq : (k == a1) = false := beq_eq_false_iff_ne.mpr h1
    simp [List.lookup, hbeq, ih h2]

/-- Helper: a successful lookup returns one of the stored values. -/
lemma lookup_mem_values {l : List (String × String)} {k v : String}
    (h : l.lookup k = some v) : v ∈ l.map Prod.snd := by
  induction l with
  | nil => simp [List.lookup] at h
  | cons a t ih =>
    obtain ⟨a1, a2⟩ := a
    by_cases hbeq : (k == a1) = true
    · simp only [List.lookup, hbeq, Option.some.injEq] at h
      simp [← h]
    · have hbf : (k == a1) = false := by
        cases hb : (k == a1) with
        | true => exact absurd hb hbeq
        | false => rfl
      simp only [List.lookup, hbf] at h
      simp [ih h]

end Pipeline

namespace Claims

open Pipeline

/-- Claim C1, counterexample. The claim says a zero-household joined row
yields a null/undefined ratio; the code performs a plain pandas float
division, which produces +infinity (the joined payment total is positive),
not NaN (pandas' null for a float column). -/
theorem C1_counterexample :
    (mapData
        (cleanPayments [RawPayment.mk (some "Cardiology") (some "Consulting Fee")
          (some 100) (some "CA")])
        [processCensusRow "California!!Estimate" (some 50000) (some 0)]).map
      paymentPerHousehold = [PyFloat.posInf] ∧
    PyFloat.posInf ≠ PyFloat.nan := by
  constructor
  · have h1 : cleanPayments [RawPayment.mk (some "Cardiology") (some "Consulting Fee")
        (some 100) (some "CA")] =
        [CleanPayment.mk "CA" "Cardiology" "Consulting" 100] := by decide
    have h2 : processCensusRow "California!!Estimate" (some 50000) (some 0) =
        CensusClean.mk "California" (some 50000) (some 0) (some "CA") := by decide
    rw [h1, h2]
    norm_num [mapData, groupStates_singleton, paymentPerHousehold, pyDivOpt]
  · decide

/-- Claim C1, amended: for every joined state row, payment_per_household is
the float division of the (positive) state payment total by
total_households: the exact quotient when total_households is a non-zero
number, +infinity (not null) when total_households = 0, and null (NaN) when
total_households is null; no error is raised in any case. -/
theorem C1_theorem (raws : List RawPayment) (census : List CensusClean)
    (r : SummaryRow) (hr : r ∈ mapData (cleanPayments raws) census) :
    (∀ b : ℚ, r.total_households = some b → b ≠ 0 →
      paymentPerHousehold r = PyFloat.finite (r.payment_amount / b)) ∧
    (r.total_households = some 0 → paymentPerHousehold r = PyFloat.posInf) ∧
    (r.total_households = none → paymentPerHousehold r = PyFloat.nan) := by
  have hpos : 0 < r.payment_amount := by
    obtain ⟨g, hg, c, hc, habbr, rfl⟩ := (mem_mapData _ _ _).mp hr
    exact groupStates_pos _ (cleanPayments_pos raws) g hg
  refine ⟨?_, ?_, ?_⟩
  · intro b hb hbne
    simp [paymentPerHousehold, pyDivOpt, hb, hbne]
  · intro hb
    simp [paymentPerHousehold, pyDivOpt, hb, hpos]
  · intro hb
    simp [paymentPerHousehold, pyDivOpt, hb]

/-- Claim C1, witness for the amended theorem: a joined row with two
households gets the exact finite ratio. -/
theorem C1_witness :
    paymentPerHousehold (SummaryRow.mk "CA" 100 (some 50000) (some 2)) =
      PyFloat.finite ((SummaryRow.mk "CA" 100 (some 50000) (some 2)).payment_amount / 2) :=
  (C1_theorem
    [RawPayment.mk (some "Cardiology") (some "Consulting Fee") (some 100) (some "CA")]
    [CensusClean.mk "California" (some 50000) (some 2) (some "CA")]
    (SummaryRow.mk "CA" 100 (some 50000) (some 2))
    (by
      have h1 : cleanPayments [RawPayment.mk (some "Cardiology") (some "Consulting Fee")
          (some 100) (some "CA")] =
          [CleanPayment.mk "CA" "Cardiology" "Consulting" 100] := by decide
      rw [h1]
      norm_num [mapData, groupStates_singleton])).1 2 rfl (by norm_num)

/-- Claim C10: a census row whose cleaned state name is not a key of the
50-states-plus-DC mapping gets a null abbreviation; a row joined into the
state summary always has a census row whose (non-null) abbreviation equals
its state, so null-abbreviation rows are excluded; and when the census side
comes from the census processing step, every summary state is one of the 51
mapped two-letter abbreviations. -/
theorem C10_theorem :
    (∀ (nm : String) (inc hh : Option ℚ),
      String.mk (stripEstimate nm.data) ∉ stateToAbbr.map Prod.fst →
      (processCensusRow nm inc hh).state_abbr = none) ∧
    (∀ (ps : List CleanPayment) (census : List CensusClean) (r : SummaryRow),
      r ∈ mapData ps census → ∃ c ∈ census, c.state_abbr = some r.state) ∧
    (∀ (ps : List CleanPayment) (rows : List (String × Option ℚ × Option ℚ))
      (r : SummaryRow),
      r ∈ mapData ps (rows.map (fun t => processCensusRow t.1 t.2.1 t.2.2)) →
      r.state ∈ stateToAbbr.map Prod.snd) := by
  refine ⟨?_, ?_, ?_⟩
  · intro nm inc hh hmem
    simp only [processCensusRow]
    exact lookup_eq_none_of_not_mem hmem
  · intro ps census r hr
    obtain ⟨g, hg, c, hc, habbr, rfl⟩ := (mem_mapData _ _ _).mp hr
    exact ⟨c, hc, habbr⟩
  · intro ps rows r hr
    obtain ⟨g, hg, c, hc, habbr, rfl⟩ := (mem_mapData _ _ _).mp hr
    obtain ⟨t, ht, rfl⟩ := List.mem_map.mp hc
    simp only [processCensusRow] at habbr
    exact lookup_mem_values habbr

/-- Claim C10, witness: the Puerto Rico census column is not one of the 51
mapped names, so its abbreviation is null. -/
theorem C10_witness :
    (processCensusRow "Puerto Rico!!Estimate" none none).state_abbr = none :=
  C10_theorem.1 "Puerto Rico!!Estimate" none none (by decide)

/-- Claim C2, counterexample. The claim says `specialty_clean` is the last
non-empty trimmed pipe-delimited segment, with the literal "Unknown" when
that result is empty. The code instead takes the last segment, empty or not,
and uses "Unknown" only for a missing raw value: a raw string ending in a
pipe yields the empty string, not "Cardiology" and not "Unknown"; an
all-whitespace raw string also yields the empty string. -/
theorem C2_counterexample :
    cleanSpecialty (some "Cardiology|") = "" ∧
    specSpecialty (some "Cardiology|") = "Cardiology" ∧
    cleanSpecialty (some "   ") = "" ∧
    ("" : String) ≠ "Cardiology" ∧ ("" : String) ≠ "Unknown" := by
  refine ⟨by decide, by decide, by decide, by decide, by decide⟩

/-- Claim C2, amended: `specialty_clean` is the trimmed last pipe-delimited
segment of the raw specialty string (which may be the empty string, e.g. when
the raw string ends in a pipe or is all whitespace); the literal "Unknown"
arises exactly when the raw value is missing; and whenever the trimmed last
segment is non-empty this agrees with the spec's last-non-empty-segment
rule. -/
theorem C2_theorem :
    cleanSpecialty none = "Unknown" ∧
    (∀ s : String, pyStrip ((pySplit '|' s.data).getLastD []) = [] →
      cleanSpecialty (some s) = "") ∧
    (∀ s : String, pyStrip ((pySplit '|' s.data).getLastD []) ≠ [] →
      cleanSpecialty (some s) = specSpecialty (some s)) := by
  refine ⟨rfl, ?_, ?_⟩
  · intro s hs
    simp only [cleanSpecialty, hs]
  · intro s hs
    have h0 : pySplit '|' s.data ≠ [] := pySplit_ne_nil '|' s.data
    obtain ⟨a, ha⟩ : ∃ a, (pySplit '|' s.data).getLast? = some a :=
      ⟨_, List.getLast?_eq_getLast _ h0⟩
    have hd : (pySplit '|' s.data).getLastD [] = a := by
      rw [List.getLastD_eq_getLast?, ha]; rfl
    have hmap : ((pySplit '|' s.data).map pyStrip).getLast? = some (pyStrip a) := by
      rw [List.getLast?_map, ha]; rfl
    have hp : (fun t => decide (t ≠ ([] : List Char))) (pyStrip a) = true := by
      rw [hd] at hs
      simpa using hs
    have hfl := getLast?_filter_pos (fun t => decide (t ≠ ([] : List Char))) _ _ hmap hp
    simp only [cleanSpecialty, specSpecialty, hd]
    rw [hfl]

/-- Claim C2, witness for the amended theorem: a concrete raw string with a
non-blank final segment on which the code and the spec rule agree. -/
theorem C2_witness :
    cleanSpecialty (some "Allopathic & Osteopathic Physicians|Internal Medicine") =
      specSpecialty (some "Allopathic & Osteopathic Physicians|Internal Medicine") :=
  C2_theorem.2.2 "Allopathic & Osteopathic Physicians|Internal Medicine" (by decide)

/-- Claim C6: a detail row survives the state-related filters of `app.py`
only when its state is explicitly selected and some state-summary row for it
has income percentile inside the inclusive band. -/
theorem C6_theorem (states : List StateRow) (details : List DetailRow)
    (selected specs : List String) (lo hi : ℚ) (r : DetailRow)
    (hr : r ∈ step3Filter details specs
      (finalStateList selected (wealthEligibleStates states lo hi))) :
    r.state ∈ selected ∧
    ∃ sr ∈ states, sr.state = r.state ∧ lo ≤ sr.income_percentile ∧
      sr.income_percentile ≤ hi := by
  simp only [step3Filter, List.mem_filter, decide_eq_true_eq, Bool.and_eq_true] at hr
  obtain ⟨-, -, hstate⟩ := hr
  simp only [finalStateList, List.mem_filter, decide_eq_true_eq] at hstate
  obtain ⟨hsel, helig⟩ := hstate
  refine ⟨hsel, ?_⟩
  simp only [wealthEligibleStates, List.mem_map, List.mem_filter,
    decide_eq_true_eq, Bool.and_eq_true] at helig
  obtain ⟨sr, ⟨hmem, hlo, hhi⟩, hst⟩ := helig
  exact ⟨sr, hmem, hst, by simpa using hlo, by simpa using hhi⟩

/-- Claim C6, witness: one concrete state table, detail table and constraint
set on which the filtered row is both selected and in-band. -/
theorem C6_witness :
    (DetailRow.mk "CA" "Cardiology" "Consulting" 100).state ∈ ["CA", "NY"] ∧
    ∃ sr ∈ [StateRow.mk "CA" 50, StateRow.mk "NY" 90],
      sr.state = (DetailRow.mk "CA" "Cardiology" "Consulting" 100).state ∧
      (0 : ℚ) ≤ sr.income_percentile ∧ sr.income_percentile ≤ 80 :=
  C6_theorem [StateRow.mk "CA" 50, StateRow.mk "NY" 90]
    [DetailRow.mk "CA" "Cardiology" "Consulting" 100]
    ["CA", "NY"] ["Cardiology"] 0 80
    (DetailRow.mk "CA" "Cardiology" "Consulting" 100) (by decide)

/-- Claim C3: the top-percent step filters by the linear-interpolation
quantile at 1 - top_percent/100 exactly when top_percent < 100 and the
step-3 set is non-empty, is skipped on the empty set, is the identity at
top_percent = 100, and on amounts [10,20,30,40] with top_percent = 25 keeps
exactly the amount-40 row. -/
theorem C3_theorem :
    applyTopPercent
        [DetailRow.mk "CA" "Orthopaedic Surgery" "Consulting" 10,
         DetailRow.mk "CA" "Orthopaedic Surgery" "Consulting" 20,
         DetailRow.mk "CA" "Orthopaedic Surgery" "Consulting" 30,
         DetailRow.mk "CA" "Orthopaedic Surgery" "Consulting" 40] 25 =
      [DetailRow.mk "CA" "Orthopaedic Surgery" "Consulting" 40] ∧
    (∀ df : List DetailRow, applyTopPercent df 100 = df) ∧
    (∀ q : ℚ, applyTopPercent [] q = []) ∧
    (∀ (df : List DetailRow) (q : ℚ), q < 100 → df ≠ [] →
      applyTopPercent df q = df.filter (fun r =>
        quantileLI (df.map (fun r => r.payment_amount)) (1 - q / 100) ≤
          r.payment_amount)) := by
  refine ⟨?_, ?_, ?_, ?_⟩
  · norm_num [applyTopPercent, quantileLI, interpAt, List.insertionSort,
      List.orderedInsert, Int.toNat, List.getD, List.filter_cons, decide_eq_true_eq]
  · intro df
    simp [applyTopPercent]
  · intro q
    simp [applyTopPercent]
  · intro df q hq hne
    rw [applyTopPercent, if_pos ⟨hq, List.length_pos.mpr hne⟩]

/-- Claim C3, witness for the general conjunct: a concrete two-row frame at
top_percent = 50 where the step is exactly the quantile filter. -/
theorem C3_witness :
    applyTopPercent [DetailRow.mk "CA" "O" "C" 1, DetailRow.mk "CA" "O" "C" 3] 50 =
      [DetailRow.mk "CA" "O" "C" 1, DetailRow.mk "CA" "O" "C" 3].filter (fun r =>
        quantileLI
          ([DetailRow.mk "CA" "O" "C" 1, DetailRow.mk "CA" "O" "C" 3].map
            (fun r => r.payment_amount)) (1 - 50 / 100) ≤ r.payment_amount) :=
  C3_theorem.2.2.2 [DetailRow.mk "CA" "O" "C" 1, DetailRow.mk "CA" "O" "C" 3] 50
    (by norm_num) (by decide)

/-- Claim C4: for a non-empty filtered set (whose aggregate amounts are
positive, as every detail row is a sum of positive payments), the Lorenz
coordinate sequence is non-decreasing in both coordinates and its final
pair is exactly (1, 1). -/
theorem C4_theorem (df : List DetailRow) (hne : df ≠ [])
    (hpos : ∀ r ∈ df, 0 < r.payment_amount) :
    List.Chain' (fun a b : ℚ × ℚ => a.1 ≤ b.1 ∧ a.2 ≤ b.2) (lorenzCoords df) ∧
    (lorenzCoords df).getLast? = some (1, 1) := by
  unfold lorenzCoords
  have hperm := List.perm_insertionSort (· ≤ ·) (df.map (fun r => r.payment_amount))
  set amounts := List.insertionSort (· ≤ ·) (df.map (fun r => r.payment_amount))
    with ha
  have hx : ∀ x ∈ amounts, 0 < x := by
    intro x hxm
    obtain ⟨r, hr, rfl⟩ := List.mem_map.mp (hperm.mem_iff.mp hxm)
    exact hpos r hr
  have hlen : amounts.length = df.length := by
    rw [hperm.length_eq, List.length_map]
  have hne' : amounts ≠ [] := by
    intro h0
    rw [h0] at hlen
    exact hne (List.length_eq_zero.mp hlen.symm)
  have htot : 0 < amounts.sum := List.sum_pos amounts hx hne'
  exact ⟨lorenzPoints_chain amounts (fun x hx' => le_of_lt (hx x hx')),
    lorenzPoints_last amounts hne' htot⟩

/-- Claim C4, witness: the singleton filtered set with amount 10. -/
theorem C4_witness :
    List.Chain' (fun a b : ℚ × ℚ => a.1 ≤ b.1 ∧ a.2 ≤ b.2)
      (lorenzCoords [DetailRow.mk "CA" "O" "C" 10]) ∧
    (lorenzCoords [DetailRow.mk "CA" "O" "C" 10]).getLast? = some (1, 1) :=
  C4_theorem [DetailRow.mk "CA" "O" "C" 10] (by decide) (by norm_num)

/-- Claim C5: over detail rows with non-negative amounts, top_1_share lies
in [0,1]; it is the defined value 0 when the total is 0 (in particular on
the empty set), and otherwise equals the sum of amounts at or above the
0.99 quantile divided by the total. -/
theorem C5_theorem (df : List DetailRow) (h : ∀ r ∈ df, 0 ≤ r.payment_amount) :
    0 ≤ top1Share df ∧ top1Share df ≤ 1 ∧
    (totalPayments df = 0 → top1Share df = 0) ∧
    (0 < totalPayments df →
      top1Share df =
        ((df.filter (fun r =>
            quantileLI (df.map (fun r => r.payment_amount)) (99 / 100) ≤
              r.payment_amount)).map (fun r => r.payment_amount)).sum /
          totalPayments df) := by
  by_cases htot : 0 < totalPayments df
  · have hval : top1Share df =
        ((df.filter (fun r =>
            quantileLI (df.map (fun r => r.payment_amount)) (99 / 100) ≤
              r.payment_amount)).map (fun r => r.payment_amount)).sum /
          totalPayments df := by
      simp only [top1Share, if_pos htot]
    have hnum0 : 0 ≤ ((df.filter (fun r =>
        quantileLI (df.map (fun r => r.payment_amount)) (99 / 100) ≤
          r.payment_amount)).map (fun r => r.payment_amount)).sum := by
      refine sum_map_nonneg _ _ ?_
      intro x hx
      exact h x (List.mem_of_mem_filter hx)
    have hle : ((df.filter (fun r =>
        quantileLI (df.map (fun r => r.payment_amount)) (99 / 100) ≤
          r.payment_amount)).map (fun r => r.payment_amount)).sum ≤
        totalPayments df := sum_map_filter_le _ _ df h
    refine ⟨?_, ?_, ?_, fun _ => hval⟩
    · rw [hval]
      exact div_nonneg hnum0 (le_of_lt htot)
    · rw [hval]
      exact (div_le_one htot).mpr hle
    · intro h0
      rw [h0] at htot
      exact absurd htot (lt_irrefl 0)
  · have hval : top1Share df = 0 := by simp only [top1Share, if_neg htot]
    exact ⟨by rw [hval], by rw [hval]; norm_num, fun _ => hval,
      fun hpos => absurd hpos htot⟩

/-- Claim C5, witness: a concrete one-row frame with a positive amount. -/
theorem C5_witness :
    0 ≤ top1Share [DetailRow.mk "CA" "O" "C" 10] ∧
    top1Share [DetailRow.mk "CA" "O" "C" 10] ≤ 1 ∧
    (totalPayments [DetailRow.mk "CA" "O" "C" 10] = 0 →
      top1Share [DetailRow.mk "CA" "O" "C" 10] = 0) ∧
    (0 < totalPayments [DetailRow.mk "CA" "O" "C" 10] →
      top1Share [DetailRow.mk "CA" "O" "C" 10] =
        (([DetailRow.mk "CA" "O" "C" 10].filter (fun r =>
            quantileLI ([DetailRow.mk "CA" "O" "C" 10].map
              (fun r => r.payment_amount)) (99 / 100) ≤
              r.payment_amount)).map (fun r => r.payment_amount)).sum /
          totalPayments [DetailRow.mk "CA" "O" "C" 10]) :=
  C5_theorem [DetailRow.mk "CA" "O" "C" 10] (by norm_num)

/-- Claim C7: under distinct census abbreviations, the state summary holds
exactly one row per state present in both the per-state payment totals and
the census rows (and none for a state absent from either side), while any
state with a payment still yields a detail-aggregate row. -/
theorem C7_theorem (ps : List CleanPayment) (census : List CensusClean)
    (hnodup : (census.filterMap (fun c => c.state_abbr)).Nodup) (s : String) :
    (((mapData ps census).filter (fun r => r.state = s)).length =
      if (∃ p ∈ ps, p.state = s) ∧ (∃ c ∈ census, c.state_abbr = some s)
      then 1 else 0) ∧
    ((∃ p ∈ ps, p.state = s) → ∃ d ∈ detailData ps, d.state = s) := by
  constructor
  · have h := join_count (groupStates ps) census s (groupStates_keys_nodup ps) hnodup
    unfold mapData
    rw [h, if_congr (and_congr (groupStates_keys ps s) Iff.rfl) rfl rfl]
  · exact detailData_states ps s

/-- Claim C7, witness: Texas has a payment but no census row, so it is
absent from the summary (count 0) yet present in the detail aggregate;
California is in both, with exactly one summary row. -/
theorem C7_witness :
    (((mapData [CleanPayment.mk "TX" "X" "Y" 5, CleanPayment.mk "CA" "X" "Y" 7]
        [CensusClean.mk "California" none none (some "CA")]).filter
          (fun r => r.state = "TX")).length =
      if (∃ p ∈ [CleanPayment.mk "TX" "X" "Y" 5, CleanPayment.mk "CA" "X" "Y" 7],
            p.state = "TX") ∧
          (∃ c ∈ [CensusClean.mk "California" none none (some "CA")],
            c.state_abbr = some "TX")
      then 1 else 0) ∧
    ((∃ p ∈ [CleanPayment.mk "TX" "X" "Y" 5, CleanPayment.mk "CA" "X" "Y" 7],
        p.state = "TX") →
      ∃ d ∈ detailData [CleanPayment.mk "TX" "X" "Y" 5, CleanPayment.mk "CA" "X" "Y" 7],
        d.state = "TX") :=
  C7_theorem [CleanPayment.mk "TX" "X" "Y" 5, CleanPayment.mk "CA" "X" "Y" 7]
    [CensusClean.mk "California" none none (some "CA")] (by decide) "TX"

/-- Claim C8: for a fixed specialty/state selection (hence a fixed step-3
filtered set with non-negative amounts), decreasing top_percent never
increases the record count or the total payments of the result. -/
theorem C8_theorem (df : List DetailRow) (p1 p2 : ℚ)
    (hpos : ∀ r ∈ df, 0 ≤ r.payment_amount)
    (hp2 : 0 < p2) (h21 : p2 ≤ p1) (hp1 : p1 ≤ 100) :
    (applyTopPercent df p2).length ≤ (applyTopPercent df p1).length ∧
    totalPayments (applyTopPercent df p2) ≤ totalPayments (applyTopPercent df p1) := by
  by_cases hlen : 0 < df.length
  · by_cases h1lt : p1 < 100
    · have h2lt : p2 < 100 := lt_of_le_of_lt h21 h1lt
      rw [applyTopPercent_eq_filter df p1 h1lt hlen,
        applyTopPercent_eq_filter df p2 h2lt hlen]
      have hq : quantileLI (df.map (fun r => r.payment_amount)) (1 - p1 / 100) ≤
          quantileLI (df.map (fun r => r.payment_amount)) (1 - p2 / 100) :=
        quantileLI_mono _ _ _ (by linarith) (by linarith) (by linarith)
      have himp : ∀ x ∈ df,
          (decide (quantileLI (df.map (fun r => r.payment_amount)) (1 - p2 / 100) ≤
            x.payment_amount)) = true →
          (decide (quantileLI (df.map (fun r => r.payment_amount)) (1 - p1 / 100) ≤
            x.payment_amount)) = true := by
        intro x _ hx
        rw [decide_eq_true_eq] at hx ⊢
        linarith
      constructor
      · refine List.Sublist.length_le (List.monotone_filter_right df ?_)
        intro x hx
        rw [decide_eq_true_eq] at hx ⊢
        linarith
      · exact sum_map_filter_mono _ _ _ df himp hpos
    · rw [applyTopPercent_eq_self df p1 (fun hc => h1lt hc.1)]
      by_cases h2lt : p2 < 100
      · rw [applyTopPercent_eq_filter df p2 h2lt hlen]
        exact ⟨List.length_filter_le _ _, sum_map_filter_le _ _ df hpos⟩
      · rw [applyTopPercent_eq_self df p2 (fun hc => h2lt hc.1)]
        exact ⟨le_refl _, le_refl _⟩
  · rw [applyTopPercent_eq_self df p1 (fun hc => hlen hc.2),
      applyTopPercent_eq_self df p2 (fun hc => hlen hc.2)]
    exact ⟨le_refl _, le_refl _⟩

/-- Claim C8, witness: narrowing from top 100 percent to top 50 percent on a
concrete two-row frame. -/
theorem C8_witness :
    (applyTopPercent [DetailRow.mk "CA" "O" "C" 10, DetailRow.mk "CA" "O" "C" 40]
        50).length ≤
      (applyTopPercent [DetailRow.mk "CA" "O" "C" 10, DetailRow.mk "CA" "O" "C" 40]
        100).length ∧
    totalPayments
        (applyTopPercent [DetailRow.mk "CA" "O" "C" 10, DetailRow.mk "CA" "O" "C" 40]
          50) ≤
      totalPayments
        (applyTopPercent [DetailRow.mk "CA" "O" "C" 10, DetailRow.mk "CA" "O" "C" 40]
          100) :=
  C8_theorem [DetailRow.mk "CA" "O" "C" 10, DetailRow.mk "CA" "O" "C" 40] 100 50
    (by norm_num) (by norm_num) (by norm_num) (by norm_num)

/-- Claim C9: when the required raw census file is missing, the run ends in
the FileNotFoundError and neither derived table write appears among the
emitted effects. -/
theorem C9_theorem (env : Env) (h : env.acsExists = false) :
    (runPreprocessing env).2 = some RunError.missingACS ∧
    Effect.writeStateSummary ∉ (runPreprocessing env).1 ∧
    Effect.writeDetail ∉ (runPreprocessing env).1 := by
  cases hc : env.cmsCacheExists <;> simp [runPreprocessing, h, hc]

/-- Claim C9, witness: the concrete environment with no cached CMS file and
no ACS file. -/
theorem C9_witness :
    (runPreprocessing (Env.mk false false)).2 = some RunError.missingACS ∧
    Effect.writeStateSummary ∉ (runPreprocessing (Env.mk false false)).1 ∧
    Effect.writeDetail ∉ (runPreprocessing (Env.mk false false)).1 :=
  C9_theorem (Env.mk false false) rfl

end Claims
